import Mathlib

/-!
# csvwatch (`main.go`): a shallow embedding and its verified properties

The program serves one CSV file as an HTML table (`/result`), optionally
hiding rows by their first column, and forwards file-system write events to a
live-reload server.

Modelling conventions

* Go `string` is Lean `String`; `[]string` is `List String`; `nil` slices are `[]`.
* A Go `error` value is `Option String`: `none` is `nil`, `some m` is an error
  whose `Error()` text is `m`.
* Code that can hit a run-time panic (`r[0]` on an empty record) returns `Exec`.
* The Go standard library is not part of the repository.  What the program
  uses of it is modelled by small executable definitions, each documented at
  its definition: `os.Open` (`FileSystem`), `csv.Reader.Read` (`Reader`),
  `regexp` (`Regex`, `MatchString`), `strings.ToUpper` (`ToUpper`) and
  `html/template` (`Node`, `Execute`, the escapers).
* Effects that the claims speak about (log lines, calls of the loader, calls
  of `lr.Reload`, `tmpl.Execute`) are recorded in a trace of `Effect`s.
-/

namespace Csvwatch

/-! ## Go run-time outcomes -/

/-- Outcome of a piece of Go code: it returns a value, or a run-time panic
(here only `index out of range`) unwinds it. -/
inductive Exec (α : Type) where
  | ret (a : α)
  | panic
  deriving DecidableEq, Repr

/-! ## `type Result struct` (main.go, lines 21-27) -/

/-- The view model handed to the template; field names as in the source. A
field left out of a Go composite literal has its zero value. -/
structure Result where
  Query_e : String := ""
  ErrorOccurred : Bool := false
  ErrorMessage : String := ""
  Content : List (List String) := []
  Time : String := ""
  deriving DecidableEq, Repr

/-! ## Files and the CSV reader -/

/-- One call of `(*csv.Reader).Read` that is not `io.EOF`: either a record or
an error (for instance a bare quote, or a wrong number of fields). -/
inductive ReadStep where
  | record (r : List String)
  | fail (err : String)
  deriving DecidableEq, Repr

/-- A `csv.Reader` over an opened file, given by the outcomes of its successive
`Read` calls; once the list is exhausted `Read` returns `io.EOF`. -/
abbrev Reader := List ReadStep

/-- Result of `os.Open`. -/
inductive OpenResult where
  | file (rd : Reader)
  | fail (err : String)
  deriving DecidableEq, Repr

/-- The file system as `os.Open` sees it. -/
abbrev FileSystem := String → OpenResult

/-- The reader of a well-formed file whose rows are `rows`. -/
def wellFormed (rows : List (List String)) : Reader :=
  rows.map ReadStep.record

/-! ## `getCSVContent` (main.go, lines 29-55) -/

/-- Lines 44-49: `var skip bool; for _, s := range exclude { if r[0] == s { skip = true } }`.
`r[0]` is evaluated once per element of `exclude` and panics on an empty record. -/
def skipLoop (r : List String) : List String → Bool → Exec Bool
  | [], skip => .ret skip
  | s :: rest, skip =>
    match r.head? with
    | none => .panic
    | some k => skipLoop r rest (if k = s then true else skip)

/-- Lines 37-54: the `for` loop over `reader.Read()`, with the named result
`ret` as accumulator. On a read error the rows gathered so far are returned
together with the error (`return ret, err`). -/
def readLoop (exclude : List String) :
    Reader → List (List String) → Exec (List (List String) × Option String)
  | [], ret => .ret (ret, none)
  | .fail err :: _, ret => .ret (ret, some err)
  | .record r :: rest, ret =>
    match skipLoop r exclude false with
    | .panic => .panic
    | .ret skip => readLoop exclude rest (if skip then ret else ret ++ [r])

/-- The function `getCSVContent(filename, exclude) (ret [][]string, err error)`. -/
def getCSVContent (fs : FileSystem) (filename : String) (exclude : List String) :
    Exec (List (List String) × Option String) :=
  match fs filename with
  | .fail err => .ret ([], some err)
  | .file rd => readLoop exclude rd []

/-! ## Regular expressions (`regexp`) -/

/-- The fragment of RE2 syntax that `validquerypat` uses. -/
inductive Regex where
  | beginText
  | endText
  | charClass (ranges : List (Char × Char))
  | plus (r : Regex)
  | concat (a b : Regex)
  deriving Repr

/-- A position of the matcher: whether it is the very start of the text, and
the text that is still unread. -/
abbrev Pos := Bool × List Char

/-- Membership in a character class given as inclusive ranges. -/
def inClass (ranges : List (Char × Char)) (c : Char) : Bool :=
  ranges.any fun rg => decide (rg.1.toNat ≤ c.toNat) && decide (c.toNat ≤ rg.2.toNat)

/-- Positions reached by one or more repetitions of `step`; `fuel` bounds the
number of further repetitions after the first. -/
def plusEnds (step : Pos → List Pos) : Nat → Pos → List Pos
  | 0, p => step p
  | fuel + 1, p => step p ++ (step p).flatMap (plusEnds step fuel)

/-- All positions at which a match of the expression that starts at the given
position can end. -/
def Regex.ends : Regex → Pos → List Pos
  | .beginText => fun p => if p.1 then [p] else []
  | .endText => fun p => if p.2 = [] then [p] else []
  | .charClass ranges => fun p =>
    match p.2 with
    | [] => []
    | c :: cs => if inClass ranges c then [(false, cs)] else []
  | .plus r => fun p => plusEnds r.ends p.2.length p
  | .concat a b => fun p => (a.ends p).flatMap b.ends

/-- Every position of a text at which a match may start. -/
def startPositions : Bool → List Char → List Pos
  | atStart, [] => [(atStart, [])]
  | atStart, c :: cs => (atStart, c :: cs) :: startPositions false cs

/-- The method `(*Regexp).MatchString`: some substring of `s` matches. -/
def MatchString (re : Regex) (s : String) : Bool :=
  (startPositions true s.data).any fun p => !(re.ends p).isEmpty

/-- Line 100: the compiled pattern `^[a-zA-Z]+$`. -/
def validquerypat : Regex :=
  .concat .beginText (.concat (.plus (.charClass [('a', 'z'), ('A', 'Z')])) .endText)

/-! ## `strings.ToUpper` -/

/-- The function `strings.ToUpper`, rune by rune. Only the ASCII part of
`unicode.ToUpper` is modelled: the program applies it to characters that
`validquerypat` has accepted. -/
def ToUpper (s : String) : String :=
  ⟨s.data.map Char.toUpper⟩

/-! ## Effects -/

/-- What the program does to the outside world, as far as the properties below
need it. -/
inductive Effect where
  | logExclude (exclude : List String)
  | loaderCall (filename : String) (exclude : List String)
  | logError (err : String)
  | execute (data : Result)
  | logEvent (op : Nat) (name : String)
  | reload (name : String)
  deriving DecidableEq, Repr

/-! ## The `/result` handler (main.go, lines 156-189) -/

/-- Lines 168-170: `for _, c := range e { exclude = append(exclude, strings.ToUpper(string(c))) }`. -/
def appendUpper (exclude : List String) : List Char → List String
  | [] => exclude
  | c :: cs => appendUpper (exclude ++ [ToUpper (String.singleton c)]) cs

/-- A run of the handler: its trace, and the value passed to `tmpl.Execute`
unless a panic unwound the handler first. -/
structure HandlerRun where
  trace : List Effect
  data : Exec Result
  deriving DecidableEq, Repr

/-- Lines 172-188: log the exclude list, load the file, and render either the
loader's error or the rows it returned. `e` is `r.URL.Query().Get("e")`. -/
def loadAndRender (fs : FileSystem) (targetCSVFile t e : String) (exclude : List String) :
    HandlerRun :=
  let pre := [Effect.logExclude exclude, Effect.loaderCall targetCSVFile exclude]
  match getCSVContent fs targetCSVFile exclude with
  | .panic => { trace := pre, data := .panic }
  | .ret (_, some err) =>
    let data : Result := { ErrorOccurred := true, ErrorMessage := err, Time := t }
    { trace := pre ++ [.logError err, .execute data], data := .ret data }
  | .ret (content, none) =>
    let data : Result := { Query_e := e, Content := content, Time := t }
    { trace := pre ++ [.execute data], data := .ret data }

/-- The `/result` handler, for the data file `targetCSVFile`, the time stamp
`t` (`time.Now().Format(time.RFC3339)`) and `e = r.URL.Query().Get("e")`, which
is `""` when the parameter is absent. -/
def resultHandler (fs : FileSystem) (targetCSVFile t e : String) : HandlerRun :=
  if e ≠ "" then
    if MatchString validquerypat e = false then
      let data : Result :=
        { ErrorOccurred := true, ErrorMessage := "Invalid Query: " ++ e, Time := t }
      { trace := [.execute data], data := .ret data }
    else
      loadAndRender fs targetCSVFile t e (appendUpper [] e.data)
  else
    loadAndRender fs targetCSVFile t e []

/-! ## The watcher loop (main.go, lines 130-154) -/

/-- The type `fsnotify.Event`: the changed path and the operation bit mask (`uint32`). -/
structure Event where
  Name : String
  Op : Nat
  deriving DecidableEq, Repr

/-- The constant `fsnotify.Write`, the second bit of `Op` (`Create = 1 << iota`, then `Write`). -/
def Write : Nat := 2

/-- Lines 137-143: what the loop does with one event, on the platform `GOOS`
(`runtime.GOOS`). -/
def onEvent (GOOS targetCSVFile : String) (event : Event) : List Effect :=
  [Effect.logEvent event.Op event.Name]
    ++ (if GOOS = "linux" ∧ event.Op &&& Write = Write then [Effect.reload event.Name] else [])
    ++ (if GOOS = "windows" ∧ event.Op &&& Write = Write ∧ event.Name = targetCSVFile
        then [Effect.reload event.Name] else [])

/-- What one `select` of the loop receives. -/
inductive Received where
  | event (ev : Event)
  | eventsClosed
  | error (err : String)
  | errorsClosed
  deriving DecidableEq, Repr

/-- Lines 131-153: the `for { select { ... } }` loop over what the two channels
deliver; it returns when a channel is closed and blocks when nothing is left. -/
def watchLoop (GOOS targetCSVFile : String) : List Received → List Effect
  | [] => []
  | .event ev :: rest => onEvent GOOS targetCSVFile ev ++ watchLoop GOOS targetCSVFile rest
  | .eventsClosed :: _ => []
  | .error err :: rest => Effect.logError err :: watchLoop GOOS targetCSVFile rest
  | .errorsClosed :: _ => []

/-- The paths passed to `lr.Reload`, in order. -/
def reloads : List Effect → List String
  | [] => []
  | .reload name :: rest => name :: reloads rest
  | _ :: rest => reloads rest

/-- The calls of `getCSVContent`, in order. -/
def loaderCalls : List Effect → List (String × List String)
  | [] => []
  | .loaderCall f x :: rest => (f, x) :: loaderCalls rest
  | _ :: rest => loaderCalls rest

/-! ## `html/template` -/

/-- The values the template sees: the Go types `string`, `bool`, `int`,
`[]string`, `[][]string` and `Result`. -/
inductive Value where
  | str (s : String)
  | bool (b : Bool)
  | int (n : Nat)
  | strs (l : List String)
  | rows (l : List (List String))
  | result (r : Result)
  deriving DecidableEq, Repr

/-- The pipelines that occur in the template. -/
inductive Expr where
  | dot
  | field (name : String)
  | var (name : String)
  | strLit (s : String)
  | index (e : Expr) (i : Nat)
  | ne (a b : Expr)
  deriving Repr

/-- The escaping functions that `html/template` appends to a pipeline,
according to the context of the action. -/
inductive Escaper where
  | htmlescaper
  | attrescaper
  | urlescaper
  deriving DecidableEq, Repr

/-- Parse tree of a template, with every action already rewritten by the
contextual escaper. -/
inductive Node where
  | text (s : String)
  | action (pipe : Expr) (escapers : List Escaper)
  | ifElse (cond : Expr) (thenList elseList : List Node)
  | range (indexVar elemVar : String) (pipe : Expr) (body : List Node)
  deriving Repr

/-- Dot and the variables in scope. -/
structure Env where
  dot : Value
  vars : List (String × Value)

/-- Field selection `.Name`. -/
def fieldOf (name : String) : Value → Option Value
  | .result r =>
    if name = "Query_e" then some (.str r.Query_e)
    else if name = "ErrorOccurred" then some (.bool r.ErrorOccurred)
    else if name = "ErrorMessage" then some (.str r.ErrorMessage)
    else if name = "Content" then some (.rows r.Content)
    else if name = "Time" then some (.str r.Time)
    else none
  | _ => none

/-- The builtin `index`; out of range is an execution error. -/
def indexOf (i : Nat) : Value → Option Value
  | .strs l => (l.get? i).map Value.str
  | .rows l => (l.get? i).map Value.strs
  | _ => none

/-- The builtin `ne` on basic values of one kind. -/
def neOf : Value → Value → Option Value
  | .str a, .str b => some (.bool (a != b))
  | .bool a, .bool b => some (.bool (a != b))
  | .int a, .int b => some (.bool (a != b))
  | _, _ => none

/-- Evaluation of a pipeline; `none` is an execution error. -/
def Expr.eval (env : Env) : Expr → Option Value
  | .dot => some env.dot
  | .field name => fieldOf name env.dot
  | .var name => env.vars.lookup name
  | .strLit s => some (.str s)
  | .index e i => (e.eval env).bind (indexOf i)
  | .ne a b =>
    match a.eval env, b.eval env with
    | some x, some y => neOf x y
    | _, _ => none

/-- Truth of a value in `{{if}}`. -/
def truth : Value → Bool
  | .str s => s != ""
  | .bool b => b
  | .int n => n != 0
  | .strs l => !l.isEmpty
  | .rows l => !l.isEmpty
  | .result _ => true

/-- The elements a `{{range}}` runs over. -/
def elements : Value → Option (List Value)
  | .strs l => some (l.map Value.str)
  | .rows l => some (l.map Value.strs)
  | _ => none

/-- Text of a value as the escapers see it (`stringify`). Only strings and
integers are printed by the template; printing a composite value is not
modelled and counts as an execution error. -/
def stringify : Value → Option String
  | .str s => some s
  | .int n => some (Nat.repr n)
  | .bool b => some (if b then "true" else "false")
  | _ => none

/-- The table `htmlReplacementTable`, one rune at a time: what `htmlReplacer`
writes for the rune. -/
def htmlReplacement (c : Char) : List Char :=
  if c = Char.ofNat 0 then [Char.ofNat 0xFFFD]
  else if c = '"' then "&#34;".data
  else if c = '&' then "&amp;".data
  else if c = '\'' then "&#39;".data
  else if c = '+' then "&#43;".data
  else if c = '<' then "&lt;".data
  else if c = '>' then "&gt;".data
  else [c]

/-- The UTF-8 encoding of a rune, as byte values. -/
def utf8Bytes (c : Char) : List Nat :=
  let n := c.toNat
  if n < 0x80 then [n]
  else if n < 0x800 then [0xC0 + n / 64, 0x80 + n % 64]
  else if n < 0x10000 then [0xE0 + n / 4096, 0x80 + n / 64 % 64, 0x80 + n % 64]
  else [0xF0 + n / 262144, 0x80 + n / 4096 % 64, 0x80 + n / 64 % 64, 0x80 + n % 64]

/-- One lower-case hexadecimal digit. -/
def hexDigit (d : Nat) : Char :=
  if d < 10 then Char.ofNat (48 + d) else Char.ofNat (87 + d)

/-- Bytes that `urlProcessor` leaves alone when it does not normalise: the
unreserved characters of RFC 3986. -/
def unreserved (c : Char) : Bool :=
  c = '-' || c = '.' || c = '_' || c = '~'
    || (decide ('a'.toNat ≤ c.toNat) && decide (c.toNat ≤ 'z'.toNat))
    || (decide ('A'.toNat ≤ c.toNat) && decide (c.toNat ≤ 'Z'.toNat))
    || (decide ('0'.toNat ≤ c.toNat) && decide (c.toNat ≤ '9'.toNat))

/-- What `urlProcessor(false, ...)` writes for one rune: the rune itself when
unreserved, else `%xx` for each of its bytes. -/
def urlReplacement (c : Char) : List Char :=
  if unreserved c then [c]
  else (utf8Bytes c).flatMap fun b => ['%', hexDigit (b / 16), hexDigit (b % 16)]

/-- One escaper applied to a string. For plain strings `attrescaper` and
`htmlescaper` both run `htmlReplacer` with `htmlReplacementTable`. -/
def Escaper.apply : Escaper → String → String
  | .htmlescaper, s => ⟨s.data.flatMap htmlReplacement⟩
  | .attrescaper, s => ⟨s.data.flatMap htmlReplacement⟩
  | .urlescaper, s => ⟨s.data.flatMap urlReplacement⟩

/-- A pipeline's escapers, applied left to right. -/
def applyEscapers : List Escaper → String → String
  | [], s => s
  | f :: fs, s => applyEscapers fs (f.apply s)

/-- A piece of the output: template text copied as it stands, or the escaped
output of an action. -/
inductive Seg where
  | text (s : String)
  | action (s : String)
  deriving DecidableEq, Repr

/-- The characters of a piece of output. -/
def Seg.chars : Seg → List Char
  | .text s => s.data
  | .action s => s.data

/-- What `Execute` wrote, and whether it ran to the end (`ok`) or stopped at
an execution error. -/
structure Out where
  segs : List Seg
  ok : Bool
  deriving DecidableEq, Repr

/-- Sequencing: the second part runs only if the first ran to its end. -/
def Out.andThen (a : Out) (b : Unit → Out) : Out :=
  if a.ok then { segs := a.segs ++ (b ()).segs, ok := (b ()).ok } else a

/-- The iterations of a `{{range}}`, from index `i` on. -/
def rangeLoop (body : Nat → Value → Out) : Nat → List Value → Out
  | _, [] => { segs := [], ok := true }
  | i, v :: vs => (body i v).andThen fun _ => rangeLoop body (i + 1) vs

mutual
/-- Execution of one node. -/
def execNode (env : Env) : Node → Out
  | .text s => { segs := [.text s], ok := true }
  | .action pipe escapers =>
    match (pipe.eval env).bind stringify with
    | some s => { segs := [.action (applyEscapers escapers s)], ok := true }
    | none => { segs := [], ok := false }
  | .ifElse cond thenList elseList =>
    match cond.eval env with
    | some v => if truth v then execList env thenList else execList env elseList
    | none => { segs := [], ok := false }
  | .range indexVar elemVar pipe body =>
    match (pipe.eval env).bind elements with
    | some vs =>
      rangeLoop (fun i v =>
        execList { dot := v, vars := (elemVar, v) :: (indexVar, .int i) :: env.vars } body) 0 vs
    | none => { segs := [], ok := false }
/-- Execution of a list of nodes, in order. -/
def execList (env : Env) : List Node → Out
  | [] => { segs := [], ok := true }
  | n :: ns => (execNode env n).andThen fun _ => execList env ns
end

/-- Lines 73-75: the body of the inner `{{range $i, $v := .}}`, one table cell. -/
def cellTemplate : List Node :=
  [ .text "\n\t\t<td class=\"col-",
    .action (.var "i") [.attrescaper],
    .text "\">",
    .action (.var "v") [.htmlescaper],
    .text "</td>\n\t" ]

/-- Lines 71-77: the body of `{{range $ii, $vv := .Content}}`, one table row. -/
def rowTemplate : List Node :=
  [ .text "\n\t<tr class=\"",
    .action (.index .dot 0) [.attrescaper],
    .text " row-",
    .action (.var "ii") [.attrescaper],
    .text "\">\n\t",
    .range "i" "v" .dot cellTemplate,
    .text "\n\t</tr>\n" ]

/-- Lines 66-68: the branch of `{{if .ErrorOccurred}}`, the error panel. -/
def errorTemplate : List Node :=
  [ .text "\n<p style=\"color: red;\">ERROR:<br>",
    .action (.field "ErrorMessage") [.htmlescaper],
    .text "</p>\n" ]

/-- Lines 68-79: the `{{else}}` branch, the echo of the query and the table. -/
def tableTemplate : List Node :=
  [ .text "\n",
    .ifElse (.ne (.field "Query_e") (.strLit ""))
      [ .text "<p>e=", .action (.field "Query_e") [.htmlescaper], .text "</p>" ]
      [],
    .text "\n<table border=\"1\" cellpadding=\"2\" style=\"border-collapse: collapse;\">\n",
    .range "ii" "vv" (.field "Content") rowTemplate,
    .text "\n</table>\n" ]

/-- Lines 57-83: the template `html`, parsed. Each action carries the escapers
of its context: element text (`htmlescaper`), a quoted attribute value
(`attrescaper`), the query part of a URL attribute (`urlescaper`, then
`attrescaper`). -/
def html : List Node :=
  [ .text "<!doctype html>\n<html>\n<head>\n<title>Result</title>\n<link rel=\"stylesheet\" type=\"text/css\" href=\"style.css?t=",
    .action (.field "Time") [.urlescaper, .attrescaper],
    .text "\">\n</head>\n<body>\n<div>\n<h1>Result</h1>\n",
    .ifElse (.field "ErrorOccurred") errorTemplate tableTemplate,
    .text "\n</div>\n<script src=\"http://localhost:35729/livereload.js\"></script>\n</body>\n</html>" ]

/-- The call `tmpl.Execute(w, data)`. -/
def Execute (data : Result) : Out :=
  execList { dot := .result data, vars := [] } html

/-- The bytes written to the response. -/
def Out.document (o : Out) : List Char :=
  o.segs.flatMap Seg.chars

/-! ## Vocabulary of the specification -/

/-- An ASCII letter: `A`-`Z` or `a`-`z`. -/
def asciiLetter (c : Char) : Prop :=
  (65 ≤ c.toNat ∧ c.toNat ≤ 90) ∨ (97 ≤ c.toNat ∧ c.toNat ≤ 122)

instance : DecidablePred asciiLetter := fun c => by
  unfold asciiLetter
  infer_instance

/-- An upper-case ASCII letter: `A`-`Z`. -/
def asciiUpper (c : Char) : Prop :=
  65 ≤ c.toNat ∧ c.toNat ≤ 90

instance : DecidablePred asciiUpper := fun c => by
  unfold asciiUpper
  infer_instance

/-- The row's first field is equal to no element of the exclude list. -/
def keeps (exclude : List String) (r : List String) : Prop :=
  ∀ s ∈ exclude, r.head? ≠ some s

instance (exclude : List String) (r : List String) : Decidable (keeps exclude r) := by
  unfold keeps
  infer_instance

mutual
/-- The text nodes inside a node, in order of appearance. -/
def textsOf : Node → List String
  | .text s => [s]
  | .action _ _ => []
  | .ifElse _ a b => textsOfList a ++ textsOfList b
  | .range _ _ _ body => textsOfList body
/-- The text nodes of a template, in order of appearance. -/
def textsOfList : List Node → List String
  | [] => []
  | n :: ns => textsOf n ++ textsOfList ns
end

/-- The characters that have a meaning in HTML markup. -/
def htmlSignificant (c : Char) : Prop :=
  c = '<' ∨ c = '>' ∨ c = '&' ∨ c = '"' ∨ c = '\''

instance : DecidablePred htmlSignificant := fun c => by
  unfold htmlSignificant
  infer_instance

/-- The escape sequences that stand for a character. -/
def entities : List (List Char) :=
  ["&#34;".data, "&amp;".data, "&#39;".data, "&#43;".data, "&lt;".data, "&gt;".data]

/-- A piece of output without markup: an escape sequence, or one character
that has no meaning in markup. -/
def PlainPiece (p : List Char) : Prop :=
  p ∈ entities ∨ ∃ d, p = [d] ∧ ¬ htmlSignificant d

/-- The piece `p` stands for the character `c`: it is without markup, and it
is an escape sequence when `c` has a meaning in markup. -/
def EscapesChar (c : Char) (p : List Char) : Prop :=
  PlainPiece p ∧ (htmlSignificant c → p ∈ entities)

/-- The text `out` is `field` written character by character, each character
as a piece that stands for it. -/
def EscapedAs (field out : List Char) : Prop :=
  ∃ pieces, List.Forall₂ EscapesChar field pieces ∧ out = pieces.flatten

/-- Text without markup: a concatenation of escape sequences and of characters
that have no meaning in markup. -/
def EscapedText (out : List Char) : Prop :=
  ∃ pieces : List (List Char), out = pieces.flatten ∧ ∀ p ∈ pieces, PlainPiece p

/-! ### The expected document, piece by piece -/

/-- One table cell: column `i`, field `v`. -/
def cellSegs (i : Nat) (v : String) : List Seg :=
  [ .text "\n\t\t<td class=\"col-",
    .action (Escaper.attrescaper.apply (Nat.repr i)),
    .text "\">",
    .action (Escaper.htmlescaper.apply v),
    .text "</td>\n\t" ]

/-- The cells of the fields of a record, the first of them in column `i`. -/
def cellsSegs : Nat → List String → List Seg
  | _, [] => []
  | i, v :: vs => cellSegs i v ++ cellsSegs (i + 1) vs

/-- One table row: ordinal `ii`, record `r`. -/
def rowSegs (ii : Nat) (r : List String) : List Seg :=
  [ .text "\n\t<tr class=\"",
    .action (Escaper.attrescaper.apply (r.headD "")),
    .text " row-",
    .action (Escaper.attrescaper.apply (Nat.repr ii)),
    .text "\">\n\t" ]
    ++ cellsSegs 0 r ++ [ .text "\n\t</tr>\n" ]

/-- The rows of the records, the first of them with ordinal `ii`. -/
def rowsSegs : Nat → List (List String) → List Seg
  | _, [] => []
  | ii, r :: rs => rowSegs ii r ++ rowsSegs (ii + 1) rs

/-- The start of the page, up to and including the heading. -/
def headSegs (t : String) : List Seg :=
  [ .text "<!doctype html>\n<html>\n<head>\n<title>Result</title>\n<link rel=\"stylesheet\" type=\"text/css\" href=\"style.css?t=",
    .action (Escaper.attrescaper.apply (Escaper.urlescaper.apply t)),
    .text "\">\n</head>\n<body>\n<div>\n<h1>Result</h1>\n" ]

/-- The error panel showing `msg`. -/
def errorSegs (msg : String) : List Seg :=
  [ .text "\n<p style=\"color: red;\">ERROR:<br>",
    .action (Escaper.htmlescaper.apply msg),
    .text "</p>\n" ]

/-- The paragraph that echoes the query, present when the query is not empty. -/
def echoSegs (q : String) : List Seg :=
  if q = "" then [] else [ .text "<p>e=", .action (Escaper.htmlescaper.apply q), .text "</p>" ]

/-- The table with one row per record, in order. -/
def tableSegs (content : List (List String)) : List Seg :=
  [ .text "\n<table border=\"1\" cellpadding=\"2\" style=\"border-collapse: collapse;\">\n" ]
    ++ rowsSegs 0 content ++ [ .text "\n</table>\n" ]

/-- The end of the page. -/
def footSegs : List Seg :=
  [ .text "\n</div>\n<script src=\"http://localhost:35729/livereload.js\"></script>\n</body>\n</html>" ]

/-- The texts of the template on a page that shows an error. -/
def errorPageTexts : List String :=
  [ "<!doctype html>\n<html>\n<head>\n<title>Result</title>\n<link rel=\"stylesheet\" type=\"text/css\" href=\"style.css?t=",
    "\">\n</head>\n<body>\n<div>\n<h1>Result</h1>\n",
    "\n<p style=\"color: red;\">ERROR:<br>", "</p>\n",
    "\n</div>\n<script src=\"http://localhost:35729/livereload.js\"></script>\n</body>\n</html>" ]

/-- The texts of the template on a page that shows the table, the echo of the
query apart. -/
def tablePageTexts : List String :=
  [ "<!doctype html>\n<html>\n<head>\n<title>Result</title>\n<link rel=\"stylesheet\" type=\"text/css\" href=\"style.css?t=",
    "\">\n</head>\n<body>\n<div>\n<h1>Result</h1>\n",
    "\n",
    "\n<table border=\"1\" cellpadding=\"2\" style=\"border-collapse: collapse;\">\n",
    "\n\t<tr class=\"", " row-", "\">\n\t",
    "\n\t\t<td class=\"col-", "\">", "</td>\n\t",
    "\n\t</tr>\n", "\n</table>\n",
    "\n</div>\n<script src=\"http://localhost:35729/livereload.js\"></script>\n</body>\n</html>" ]

/-- How the table starts in the document. -/
def tableTag : List Char := "<table".data

/-- How the echo of the query starts in the document. -/
def echoTag : List Char := "<p>e=".data

/-- How the error panel starts in the document. -/
def errorTag : List Char := "<p style=\"color: red;\">ERROR:".data

/-! ### Searching a document for a tag -/

/-- The two texts differ at a position that both have. -/
def clash : List Char → List Char → Bool
  | a :: p, b :: s => a != b || clash p s
  | _, _ => false

/-- No match of `p` can start inside the text, whatever follows the text. -/
def avoids (p : List Char) : List Char → Bool
  | [] => true
  | c :: cs => clash p (c :: cs) && avoids p cs

/-- A piece of output is sound for a list of texts: it is one of these texts
copied from the template, or the output of an action and without markup. -/
def Seg.sound (texts : List String) : Seg → Prop
  | .text s => s ∈ texts
  | .action s => EscapedText s.data

/-! # Theorems -/

/-! ## The loader -/

theorem skipLoop_cons (k : String) (tl : List String) (exclude : List String) (skip : Bool) :
    skipLoop (k :: tl) exclude skip = .ret (skip || decide (k ∈ exclude)) := by
  induction exclude generalizing skip with
  | nil => simp [skipLoop]
  | cons s rest ih =>
    simp only [skipLoop, List.head?_cons, ih]
    by_cases h : k = s
    · simp [h]
    · simp [h]

theorem skipLoop_nil (r : List String) (skip : Bool) : skipLoop r [] skip = .ret skip := by
  simp [skipLoop]

theorem keeps_cons_iff (exclude : List String) (k : String) (tl : List String) :
    keeps exclude (k :: tl) ↔ k ∉ exclude := by
  unfold keeps
  constructor
  · intro h hk
    exact h k hk rfl
  · intro h s hs heq
    simp only [List.head?_cons, Option.some.injEq] at heq
    exact h (heq ▸ hs)

theorem readLoop_wellFormed (exclude : List String) (R : List (List String))
    (hne : ∀ r ∈ R, r ≠ []) (acc : List (List String)) :
    readLoop exclude (wellFormed R) acc
      = .ret (acc ++ R.filter (fun r => decide (keeps exclude r)), none) := by
  induction R generalizing acc with
  | nil => simp [wellFormed, readLoop]
  | cons r rest ih =>
    have hrest : ∀ r ∈ rest, r ≠ [] := fun x hx => hne x (List.mem_cons_of_mem _ hx)
    cases r with
    | nil => exact absurd rfl (hne [] (List.mem_cons_self _ _))
    | cons k tl =>
      have ih2 := fun acc => ih hrest acc
      simp only [wellFormed] at ih2
      simp only [wellFormed, List.map_cons, readLoop, skipLoop_cons, Bool.false_or, ih2]
      by_cases hk : k ∈ exclude
      · have : ¬ keeps exclude (k :: tl) := by rw [keeps_cons_iff]; exact not_not.mpr hk
        simp [hk, this]
      · have : keeps exclude (k :: tl) := by rw [keeps_cons_iff]; exact hk
        simp [hk, this]

theorem readLoop_nil_exclude (R : List (List String)) (acc : List (List String)) :
    readLoop [] (wellFormed R) acc = .ret (acc ++ R, none) := by
  induction R generalizing acc with
  | nil => simp [wellFormed, readLoop]
  | cons r rest ih =>
    have ih2 := fun acc => ih acc
    simp only [wellFormed] at ih2
    simp [wellFormed, readLoop, skipLoop, ih2]

theorem readLoop_fail (exclude : List String) (pre : List (List String)) (err : String)
    (rest : Reader) (hne : exclude = [] ∨ ∀ r ∈ pre, r ≠ []) (acc : List (List String)) :
    ∃ partialRows, readLoop exclude (wellFormed pre ++ .fail err :: rest) acc
      = .ret (partialRows, some err) := by
  induction pre generalizing acc with
  | nil => exact ⟨acc, by simp [wellFormed, readLoop]⟩
  | cons r more ih =>
    have hmore : exclude = [] ∨ ∀ r ∈ more, r ≠ [] :=
      hne.imp id (fun h x hx => h x (List.mem_cons_of_mem _ hx))
    have hskip : ∃ b, skipLoop r exclude false = .ret b := by
      rcases hne with h | h
      · subst h; exact ⟨false, skipLoop_nil r false⟩
      · cases r with
        | nil => exact absurd rfl (h [] (List.mem_cons_self _ _))
        | cons k tl => exact ⟨_, skipLoop_cons k tl exclude false⟩
    obtain ⟨b, hb⟩ := hskip
    obtain ⟨p, hp⟩ := ih hmore (if b then acc else acc ++ [r])
    refine ⟨p, ?_⟩
    have hcons : wellFormed (r :: more) ++ ReadStep.fail err :: rest
        = ReadStep.record r :: (wellFormed more ++ ReadStep.fail err :: rest) := rfl
    rw [hcons, readLoop, hb]
    exact hp

/-! ## The pattern `^[a-zA-Z]+$` -/

theorem inClass_letters (c : Char) :
    inClass [('a', 'z'), ('A', 'Z')] c = true ↔ asciiLetter c := by
  have ha : 'a'.toNat = 97 := by decide
  have hz : 'z'.toNat = 122 := by decide
  have hA : 'A'.toNat = 65 := by decide
  have hZ : 'Z'.toNat = 90 := by decide
  simp only [inClass, asciiLetter, List.any_cons, List.any_nil, Bool.or_false, Bool.or_eq_true,
    Bool.and_eq_true, decide_eq_true_eq, ha, hz, hA, hZ]
  exact Or.comm

theorem charClass_ends_nil (R : List (Char × Char)) (b : Bool) :
    (Regex.charClass R).ends (b, []) = [] := rfl

theorem charClass_ends_cons (R : List (Char × Char)) (b : Bool) (c : Char) (cs : List Char) :
    (Regex.charClass R).ends (b, c :: cs) = if inClass R c then [(false, cs)] else [] := rfl

theorem plusEnds_of_step_nil (step : Pos → List Pos) (fuel : Nat) (p : Pos)
    (h : step p = []) : plusEnds step fuel p = [] := by
  cases fuel <;> simp [plusEnds, h]

theorem plusEnds_class (R : List (Char × Char)) (l : List Char) (fuel : Nat) (b : Bool)
    (h : l.length ≤ fuel + 1) :
    (∃ q ∈ plusEnds (Regex.charClass R).ends fuel (b, l), q.2 = [])
      ↔ l ≠ [] ∧ ∀ c ∈ l, inClass R c = true := by
  induction l generalizing fuel b with
  | nil =>
    rw [plusEnds_of_step_nil _ _ _ (charClass_ends_nil R b)]
    simp
  | cons c cs ih =>
    by_cases hc : inClass R c = true
    · cases fuel with
      | zero =>
        have hcs : cs = [] := by
          simp only [List.length_cons] at h
          exact List.length_eq_zero.mp (by omega)
        subst hcs
        simp [plusEnds, charClass_ends_cons, hc]
      | succ f =>
        have hlen : cs.length ≤ f + 1 := by
          simp only [List.length_cons] at h
          omega
        have ih2 := ih f false hlen
        simp only [plusEnds, charClass_ends_cons, hc, if_true, List.flatMap_cons,
          List.flatMap_nil, List.append_nil, List.singleton_append, List.mem_cons,
          exists_eq_or_imp, ih2]
        constructor
        · rintro (h0 | ⟨_, h1⟩)
          · subst h0
            simp [hc]
          · refine ⟨by simp, ?_⟩
            intro x hx
            rcases hx with hx | hx
            · exact hx ▸ hc
            · exact h1 x hx
        · rintro ⟨_, hall⟩
          by_cases hnil : cs = []
          · exact Or.inl hnil
          · exact Or.inr ⟨hnil, fun x hx => hall x (Or.inr hx)⟩
    · rw [plusEnds_of_step_nil _ _ _ (by simp [charClass_ends_cons, hc])]
      simp [hc]

theorem validquerypat_ends_false (l : List Char) : validquerypat.ends (false, l) = [] := by
  simp [validquerypat, Regex.ends]

theorem startPositions_false (l : List Char) :
    ∀ p ∈ startPositions false l, p.1 = false := by
  induction l with
  | nil => simp [startPositions]
  | cons c cs ih =>
    intro p hp
    simp only [startPositions, List.mem_cons] at hp
    rcases hp with hp | hp
    · rw [hp]
    · exact ih p hp

theorem validquerypat_ends_true (l : List Char) :
    validquerypat.ends (true, l) ≠ [] ↔ l ≠ [] ∧ ∀ c ∈ l, asciiLetter c := by
  have h := plusEnds_class [('a', 'z'), ('A', 'Z')] l l.length true (Nat.le_succ _)
  simp only [inClass_letters] at h
  rw [← h]
  simp only [validquerypat, Regex.ends, if_true, List.flatMap_cons, List.flatMap_nil,
    List.append_nil, ne_eq, List.flatMap_eq_nil_iff, not_forall]
  constructor
  · rintro ⟨q, hq, hne⟩
    refine ⟨q, hq, ?_⟩
    by_contra hcon
    exact hne (by simp [hcon])
  · rintro ⟨q, hq, hnil⟩
    exact ⟨q, hq, by simp [hnil]⟩

/-- The pattern accepts exactly the non-empty strings of ASCII letters. -/
theorem matchString_validquerypat (e : String) :
    MatchString validquerypat e = true ↔ e.data ≠ [] ∧ ∀ c ∈ e.data, asciiLetter c := by
  rw [← validquerypat_ends_true]
  unfold MatchString
  have hrest : ∀ l : List Char,
      (startPositions false l).any (fun p => !(validquerypat.ends p).isEmpty) = false := by
    intro l
    rw [List.any_eq_false]
    intro p hp
    have h1 := startPositions_false l p hp
    obtain ⟨b, r⟩ := p
    simp only at h1
    subst h1
    simp [validquerypat_ends_false]
  cases hd : e.data with
  | nil => simp [startPositions, List.isEmpty_iff]
  | cons c cs => simp [startPositions, hrest, List.isEmpty_iff]

/-! ## The exclude list built by the handler -/

theorem appendUpper_eq (acc : List String) (l : List Char) :
    appendUpper acc l = acc ++ l.map fun c => String.singleton c.toUpper := by
  induction l generalizing acc with
  | nil => simp [appendUpper]
  | cons c cs ih =>
    rw [appendUpper, ih]
    simp only [List.map_cons, List.append_assoc, List.singleton_append]
    rfl

theorem ofNat_toNat (n : Nat) (h : n < 55296) : (Char.ofNat n).toNat = n := by
  have hv : n.isValidChar := Or.inl h
  simp only [Char.ofNat, hv, Char.ofNatAux, Char.toNat, dite_true]
  show (BitVec.ofNatLt n _).toNat = n
  simp

theorem toUpper_asciiUpper (c : Char) (h : asciiLetter c) : asciiUpper c.toUpper := by
  unfold asciiUpper
  rcases h with ⟨h1, h2⟩ | ⟨h1, h2⟩
  · have : c.toUpper = c := by
      unfold Char.toUpper
      simp only [ge_iff_le]
      rw [if_neg (by omega)]
    rw [this]
    exact ⟨h1, h2⟩
  · have : c.toUpper.toNat = c.toNat - 32 := by
      unfold Char.toUpper
      simp only [ge_iff_le, h1, h2, and_self, if_true]
      exact ofNat_toNat _ (by omega)
    omega

theorem matchString_empty : MatchString validquerypat "" = false := by decide

theorem loadAndRender_trace_calls (fs : FileSystem) (target t e : String) (X : List String) :
    loaderCalls (loadAndRender fs target t e X).trace = [(target, X)] := by
  unfold loadAndRender
  cases h : getCSVContent fs target X with
  | panic => simp [loaderCalls]
  | ret p =>
    obtain ⟨rows, err⟩ := p
    cases err <;> simp [loaderCalls]

theorem getCSVContent_wellFormed (fs : FileSystem) (filename : String) (R : List (List String))
    (X : List String) (hfile : fs filename = .file (wellFormed R)) (hne : ∀ r ∈ R, r ≠ []) :
    getCSVContent fs filename X
      = .ret (R.filter (fun r => decide (keeps X r)), none) := by
  unfold getCSVContent
  rw [hfile]
  simpa using readLoop_wellFormed X R hne []

/-! ## Claims about the loader and the `/result` handler -/

/-- C1: for a data file that parses into the rows `R` (each with a first
field) and any exclude list `X`, `getCSVContent` returns, without error,
exactly the rows of `R` whose first field equals no element of `X`, unchanged
and in their order in `R`. -/
theorem C1_getCSVContent_filters (fs : FileSystem) (filename : String)
    (R : List (List String)) (X : List String)
    (hfile : fs filename = .file (wellFormed R)) (hne : ∀ r ∈ R, r ≠ []) :
    getCSVContent fs filename X = .ret (R.filter (fun r => decide (keeps X r)), none) :=
  getCSVContent_wellFormed fs filename R X hfile hne

/-- Witness of C1: rows `A,foo,1 / B,bar,2 / A,baz,3` with `X = ["A"]` give the
single row `B,bar,2`. -/
theorem C1_getCSVContent_filters_witness :
    getCSVContent (fun _ => .file (wellFormed [["A", "foo", "1"], ["B", "bar", "2"], ["A", "baz", "3"]]))
      "data.csv" ["A"] = .ret ([["B", "bar", "2"]], none) :=
  (C1_getCSVContent_filters _ "data.csv"
    [["A", "foo", "1"], ["B", "bar", "2"], ["A", "baz", "3"]] ["A"] rfl (by decide)).trans
    (by decide)

/-- C2: for a non-empty query string `e`, the pattern matches `e` exactly when
every character of `e` is an ASCII letter; in that case the handler calls the
loader once, with the list of the upper-cased characters of `e`, one
single-character entry per character, in order; otherwise it rejects `e`:
it renders the validation error and does not call the loader. -/
theorem C2_query_validation (fs : FileSystem) (target t e : String) (he : e ≠ "") :
    (MatchString validquerypat e = true ↔ ∀ c ∈ e.data, asciiLetter c)
    ∧ ((∀ c ∈ e.data, asciiLetter c) →
        loaderCalls (resultHandler fs target t e).trace
          = [(target, e.data.map fun c => String.singleton c.toUpper)])
    ∧ ((¬ ∀ c ∈ e.data, asciiLetter c) →
        resultHandler fs target t e
          = { trace := [.execute { ErrorOccurred := true,
                                   ErrorMessage := "Invalid Query: " ++ e, Time := t }],
              data := .ret { ErrorOccurred := true,
                             ErrorMessage := "Invalid Query: " ++ e, Time := t } }) := by
  have hdata : e.data ≠ [] := by
    intro h
    apply he
    cases e
    simp only at h
    subst h
    rfl
  have hiff : MatchString validquerypat e = true ↔ ∀ c ∈ e.data, asciiLetter c := by
    rw [matchString_validquerypat]
    exact ⟨fun h => h.2, fun h => ⟨hdata, h⟩⟩
  refine ⟨hiff, ?_, ?_⟩
  · intro hall
    have hm := hiff.mpr hall
    unfold resultHandler
    rw [if_pos he, if_neg (by simp [hm]), loadAndRender_trace_calls, appendUpper_eq]
    rfl
  · intro hnot
    have hm : MatchString validquerypat e = false := by
      cases h : MatchString validquerypat e with
      | false => rfl
      | true => exact absurd (hiff.mp h) hnot
    unfold resultHandler
    rw [if_pos he, if_pos hm]

/-- Witness of C2: the query `aB` is accepted and the loader receives `["A", "B"]`. -/
theorem C2_query_validation_witness :
    MatchString validquerypat "aB" = true
    ∧ loaderCalls (resultHandler (fun _ => .fail "gone") "data.csv" "T" "aB").trace
        = [("data.csv", ["A", "B"])] :=
  have h := C2_query_validation (fun _ => .fail "gone") "data.csv" "T" "aB" (by decide)
  ⟨h.1.mpr (by decide), (h.2.1 (by decide)).trans (by decide)⟩

/-- C3: for a non-empty query string `e` that the pattern rejects, the handler
executes the template on the result with `ErrorOccurred = true`, the message
`"Invalid Query: "` followed by `e` itself, and no content; it does not call
the loader, and its whole run is the same for every file system. -/
theorem C3_invalid_query (t e : String) (he : e ≠ "")
    (hrej : MatchString validquerypat e = false) (fs : FileSystem) (target : String) :
    resultHandler fs target t e
        = { trace := [.execute { Query_e := "", ErrorOccurred := true,
                                 ErrorMessage := "Invalid Query: " ++ e, Content := [],
                                 Time := t }],
            data := .ret { Query_e := "", ErrorOccurred := true,
                           ErrorMessage := "Invalid Query: " ++ e, Content := [], Time := t } }
    ∧ loaderCalls (resultHandler fs target t e).trace = []
    ∧ ∀ fs2 : FileSystem, resultHandler fs2 target t e = resultHandler fs target t e := by
  have h : ∀ f : FileSystem, resultHandler f target t e
        = { trace := [.execute { Query_e := "", ErrorOccurred := true,
                                 ErrorMessage := "Invalid Query: " ++ e, Content := [],
                                 Time := t }],
            data := .ret { Query_e := "", ErrorOccurred := true,
                           ErrorMessage := "Invalid Query: " ++ e, Content := [], Time := t } } := by
    intro f
    unfold resultHandler
    rw [if_pos he, if_pos hrej]
  refine ⟨h fs, ?_, fun fs2 => (h fs2).trans (h fs).symm⟩
  rw [h fs]
  rfl

/-- Witness of C3: `e = "1a"` gives the message `Invalid Query: 1a`. -/
theorem C3_invalid_query_witness :
    (resultHandler (fun _ => .file (wellFormed [["A", "foo", "1"]])) "data.csv" "T" "1a").data
      = .ret { ErrorOccurred := true, ErrorMessage := "Invalid Query: 1a", Time := "T" } :=
  (congrArg HandlerRun.data
    (C3_invalid_query "T" "1a" (by decide) (by decide)
      (fun _ => .file (wellFormed [["A", "foo", "1"]])) "data.csv").1).trans (by decide)

/-- C4: for an absent or accepted query, when the file cannot be opened, or a
read fails after any number of well-formed rows, `getCSVContent` returns the
error, and the handler executes the template on the result with
`ErrorOccurred = true`, the error's text as message and empty content; that is
the only result it renders. -/
theorem C4_loader_failure (fs : FileSystem) (target t e err : String)
    (pre : List (List String)) (rest : Reader)
    (hq : e = "" ∨ MatchString validquerypat e = true)
    (hfail : fs target = .fail err
      ∨ ((∀ r ∈ pre, r ≠ []) ∧ fs target = .file (wellFormed pre ++ .fail err :: rest))) :
    (∀ X, ∃ partialRows, getCSVContent fs target X = .ret (partialRows, some err))
    ∧ ∃ X, resultHandler fs target t e
        = { trace := [.logExclude X, .loaderCall target X, .logError err,
                      .execute { Query_e := "", ErrorOccurred := true, ErrorMessage := err,
                                 Content := [], Time := t }],
            data := .ret { Query_e := "", ErrorOccurred := true, ErrorMessage := err,
                           Content := [], Time := t } } := by
  have hload : ∀ X, ∃ partialRows, getCSVContent fs target X = .ret (partialRows, some err) := by
    intro X
    unfold getCSVContent
    rcases hfail with h | ⟨hne, h⟩
    · rw [h]
      exact ⟨[], rfl⟩
    · rw [h]
      exact readLoop_fail X pre err rest (Or.inr hne) []
  refine ⟨hload, ?_⟩
  have hrun : ∀ X, loadAndRender fs target t e X
        = { trace := [.logExclude X, .loaderCall target X, .logError err,
                      .execute { Query_e := "", ErrorOccurred := true, ErrorMessage := err,
                                 Content := [], Time := t }],
            data := .ret { Query_e := "", ErrorOccurred := true, ErrorMessage := err,
                           Content := [], Time := t } } := by
    intro X
    obtain ⟨p, hp⟩ := hload X
    unfold loadAndRender
    rw [hp]
    rfl
  unfold resultHandler
  by_cases he : e = ""
  · rw [if_neg (by simp [he])]
    exact ⟨[], hrun []⟩
  · rcases hq with h | h
    · exact absurd h he
    · rw [if_pos he, if_neg (by simp [h])]
      exact ⟨_, hrun _⟩

/-- Witness of C4: a read error after one good row, with the query `a`. -/
theorem C4_loader_failure_witness :
    (resultHandler
        (fun _ => .file [.record ["B", "bar", "2"], .fail "line 2: wrong number of fields"])
        "data.csv" "T" "a").data
      = .ret { ErrorOccurred := true, ErrorMessage := "line 2: wrong number of fields",
               Time := "T" } := by
  obtain ⟨X, hX⟩ := (C4_loader_failure
    (fun _ => .file [.record ["B", "bar", "2"], .fail "line 2: wrong number of fields"])
    "data.csv" "T" "a" "line 2: wrong number of fields" [["B", "bar", "2"]] []
    (Or.inr (by decide)) (Or.inr ⟨by decide, rfl⟩)).2
  rw [hX]

/-- C5: when the `e` parameter is absent (read as `""`), the handler calls the
loader once with the empty exclude list, and for a readable, well-formed file
with rows `R` it renders no error and all rows of `R` in their order. -/
theorem C5_absent_query (fs : FileSystem) (target t : String) (R : List (List String))
    (hfile : fs target = .file (wellFormed R)) :
    resultHandler fs target t ""
      = { trace := [.logExclude [], .loaderCall target [],
                    .execute { Query_e := "", ErrorOccurred := false, ErrorMessage := "",
                               Content := R, Time := t }],
          data := .ret { Query_e := "", ErrorOccurred := false, ErrorMessage := "",
                         Content := R, Time := t } } := by
  have hload : getCSVContent fs target [] = .ret (R, none) := by
    unfold getCSVContent
    rw [hfile]
    exact readLoop_nil_exclude R []
  unfold resultHandler
  rw [if_neg (by simp)]
  unfold loadAndRender
  rw [hload]
  rfl

/-- Witness of C5: rows `A,foo,1 / B,bar,2 / A,baz,3` are rendered in that order. -/
theorem C5_absent_query_witness :
    (resultHandler
        (fun _ => .file (wellFormed [["A", "foo", "1"], ["B", "bar", "2"], ["A", "baz", "3"]]))
        "data.csv" "T" "").data
      = .ret { Content := [["A", "foo", "1"], ["B", "bar", "2"], ["A", "baz", "3"]],
               Time := "T" } :=
  congrArg HandlerRun.data
    (C5_absent_query _ "data.csv" "T"
      [["A", "foo", "1"], ["B", "bar", "2"], ["A", "baz", "3"]] rfl)

/-- C10: for an accepted query, every entry of the exclude list that the
handler passes to the loader is one upper-case ASCII letter; hence, for a
well-formed file, a row whose first field is not exactly one upper-case ASCII
letter is in the rendered content. -/
theorem C10_only_upper_letters_excluded (fs : FileSystem) (target t e : String)
    (R : List (List String)) (r : List String)
    (hacc : MatchString validquerypat e = true)
    (hfile : fs target = .file (wellFormed R)) (hne : ∀ x ∈ R, x ≠ [])
    (hr : r ∈ R) (hkey : ¬ ∃ c, asciiUpper c ∧ r.head? = some (String.singleton c)) :
    (∃ X, loaderCalls (resultHandler fs target t e).trace = [(target, X)]
        ∧ ∀ s ∈ X, ∃ c, asciiUpper c ∧ s = String.singleton c)
    ∧ ∃ content, (resultHandler fs target t e).data
          = .ret { Query_e := e, ErrorOccurred := false, ErrorMessage := "",
                   Content := content, Time := t }
        ∧ r ∈ content := by
  have hletters := ((matchString_validquerypat e).mp hacc).2
  have he : e ≠ "" := by
    intro h
    rw [h, matchString_empty] at hacc
    exact Bool.noConfusion hacc
  have hX : ∀ s ∈ appendUpper [] e.data, ∃ c, asciiUpper c ∧ s = String.singleton c := by
    intro s hs
    rw [appendUpper_eq, List.nil_append, List.mem_map] at hs
    obtain ⟨c, hc, rfl⟩ := hs
    exact ⟨c.toUpper, toUpper_asciiUpper c (hletters c hc), rfl⟩
  have hrun : resultHandler fs target t e
      = loadAndRender fs target t e (appendUpper [] e.data) := by
    unfold resultHandler
    rw [if_pos he, if_neg (by simp [hacc])]
  refine ⟨⟨_, by rw [hrun, loadAndRender_trace_calls], hX⟩, ?_⟩
  refine ⟨R.filter (fun x => decide (keeps (appendUpper [] e.data) x)), ?_, ?_⟩
  · rw [hrun]
    unfold loadAndRender
    rw [getCSVContent_wellFormed fs target R _ hfile hne]
  · rw [List.mem_filter]
    refine ⟨hr, ?_⟩
    rw [decide_eq_true_eq]
    intro s hs heq
    obtain ⟨c, hc, rfl⟩ := hX s hs
    exact hkey ⟨c, hc, heq⟩

/-- Witness of C10: with the query `a`, the rows keyed `a`, `AA` and the empty
key stay, the row keyed `A` goes. -/
theorem C10_only_upper_letters_excluded_witness :
    ∃ content,
      (resultHandler (fun _ => .file (wellFormed [["A", "x"], ["a", "y"], ["AA"], [""]]))
          "data.csv" "T" "a").data
        = .ret { Query_e := "a", Content := content, Time := "T" }
      ∧ ["a", "y"] ∈ content :=
  (C10_only_upper_letters_excluded
    (fun _ => .file (wellFormed [["A", "x"], ["a", "y"], ["AA"], [""]])) "data.csv" "T" "a"
    [["A", "x"], ["a", "y"], ["AA"], [""]] ["a", "y"] (by decide) rfl (by decide) (by decide)
    (by
      rintro ⟨c, hc, h⟩
      simp only [List.head?_cons, Option.some.injEq] at h
      have h2 : c = 'a' := by
        have := congrArg String.data h
        simp only [String.singleton] at this
        exact (List.cons.inj this).1.symm
      subst h2
      exact absurd hc (by decide))).2

/-! ## The watcher loop -/

/-- The test `event.Op&fsnotify.Write == fsnotify.Write` holds exactly when the
`Write` bit of the mask is set. -/
theorem and_Write_eq_iff (op : Nat) : op &&& Write = Write ↔ op.testBit 1 = true := by
  have h2 : ∀ i, (2 : Nat).testBit i = decide (1 = i) := fun i =>
    Nat.testBit_two_pow (n := 1) (m := i)
  unfold Write
  constructor
  · intro h
    have h1 := congrArg (fun n => Nat.testBit n 1) h
    simp only [Nat.testBit_and, h2, decide_True, Bool.and_true] at h1
    exact h1
  · intro h
    apply Nat.eq_of_testBit_eq
    intro i
    rw [Nat.testBit_and, h2]
    by_cases hi : 1 = i
    · subst hi
      simp [h]
    · simp [hi]

theorem reloads_append (a b : List Effect) : reloads (a ++ b) = reloads a ++ reloads b := by
  induction a with
  | nil => rfl
  | cons x xs ih => cases x <;> simp [reloads, ih]

theorem onEvent_other (GOOS target : String) (ev : Event)
    (h1 : GOOS ≠ "linux") (h2 : GOOS ≠ "windows") :
    onEvent GOOS target ev = [.logEvent ev.Op ev.Name] := by
  simp [onEvent, h1, h2]

/-- C6: for every event and every configured data file path, on `linux` the
loop forwards a reload for the changed path exactly when the operation
includes `Write`, whatever the path; on `windows` exactly when the operation
includes `Write` and the changed path equals the configured path; and an
event without `Write` forwards nothing on any platform. -/
theorem C6_reload_policy (target : String) (ev : Event) :
    reloads (onEvent "linux" target ev) = (if ev.Op.testBit 1 = true then [ev.Name] else [])
    ∧ reloads (onEvent "windows" target ev)
        = (if ev.Op.testBit 1 = true ∧ ev.Name = target then [ev.Name] else [])
    ∧ ∀ GOOS : String, ev.Op.testBit 1 = true ∨ reloads (onEvent GOOS target ev) = [] := by
  have hw := and_Write_eq_iff ev.Op
  have hlw : ("linux" : String) ≠ "windows" := by decide
  have hwl : ("windows" : String) ≠ "linux" := by decide
  refine ⟨?_, ?_, ?_⟩
  · by_cases h : ev.Op.testBit 1 = true
    · simp [onEvent, hw.mpr h, h, hlw, reloads]
    · have h3 : ¬ ev.Op &&& Write = Write := fun hc => h (hw.mp hc)
      simp [onEvent, h3, h, reloads]
  · by_cases h : ev.Op.testBit 1 = true
    · by_cases hn : ev.Name = target
      · simp [onEvent, hw.mpr h, h, hn, hwl, reloads]
      · simp [onEvent, h, hn, hwl, reloads]
    · have h3 : ¬ ev.Op &&& Write = Write := fun hc => h (hw.mp hc)
      simp [onEvent, h3, h, reloads]
  · intro GOOS
    by_cases h : ev.Op.testBit 1 = true
    · exact Or.inl h
    · have h3 : ¬ ev.Op &&& Write = Write := fun hc => h (hw.mp hc)
      exact Or.inr (by simp [onEvent, h3, reloads])

/-- C9: on a platform whose `GOOS` is neither `linux` nor `windows`, the only
effect of an event is its log line, and the loop never forwards a reload,
whatever the channels deliver. -/
theorem C9_other_platforms_never_reload (GOOS target : String)
    (h1 : GOOS ≠ "linux") (h2 : GOOS ≠ "windows") :
    (∀ ev : Event, onEvent GOOS target ev = [.logEvent ev.Op ev.Name])
    ∧ ∀ received : List Received, reloads (watchLoop GOOS target received) = [] := by
  refine ⟨fun ev => onEvent_other GOOS target ev h1 h2, ?_⟩
  intro received
  induction received with
  | nil => rfl
  | cons m rest ih =>
    cases m with
    | event ev =>
      rw [watchLoop, reloads_append, ih, onEvent_other GOOS target ev h1 h2]
      rfl
    | eventsClosed => rfl
    | error err =>
      simp [watchLoop, reloads, ih]
    | errorsClosed => rfl

/-- Witness of C9: on `darwin` a `Write` event on the data file itself is only logged. -/
theorem C9_other_platforms_never_reload_witness :
    watchLoop "darwin" "data.csv" [.event ⟨"data.csv", 2⟩] = [.logEvent 2 "data.csv"]
    ∧ reloads (watchLoop "darwin" "data.csv" [.event ⟨"data.csv", 2⟩]) = [] :=
  have h := C9_other_platforms_never_reload "darwin" "data.csv" (by decide) (by decide)
  ⟨by rw [watchLoop, h.1]; rfl, h.2 _⟩

/-! ## The escapers -/

theorem entities_plain : ∀ p ∈ entities, ∀ c ∈ p, c ≠ '<' ∧ c ≠ '>' ∧ c ≠ '"' ∧ c ≠ '\'' := by
  decide

theorem plainPiece_chars (p : List Char) (h : PlainPiece p) :
    ∀ c ∈ p, c ≠ '<' ∧ c ≠ '>' ∧ c ≠ '"' ∧ c ≠ '\'' := by
  rcases h with h | ⟨d, rfl, hd⟩
  · exact entities_plain p h
  · intro c hc
    rw [List.mem_singleton] at hc
    subst hc
    unfold htmlSignificant at hd
    simp only [not_or] at hd
    exact ⟨hd.1, hd.2.1, hd.2.2.2.1, hd.2.2.2.2⟩

theorem escapedText_chars (out : List Char) (h : EscapedText out) :
    ∀ c ∈ out, c ≠ '<' ∧ c ≠ '>' ∧ c ≠ '"' ∧ c ≠ '\'' := by
  obtain ⟨pieces, rfl, hp⟩ := h
  intro c hc
  rw [List.mem_flatten] at hc
  obtain ⟨p, hpm, hcp⟩ := hc
  exact plainPiece_chars p (hp p hpm) c hcp

theorem htmlReplacement_escapes (c : Char) : EscapesChar c (htmlReplacement c) := by
  unfold htmlReplacement
  split_ifs with h0 h1 h2 h3 h4 h5 h6
  · subst h0
    exact ⟨Or.inr ⟨_, rfl, by decide⟩, fun h => absurd h (by decide)⟩
  · exact ⟨Or.inl (by decide), fun _ => by decide⟩
  · exact ⟨Or.inl (by decide), fun _ => by decide⟩
  · exact ⟨Or.inl (by decide), fun _ => by decide⟩
  · exact ⟨Or.inl (by decide), fun _ => by decide⟩
  · exact ⟨Or.inl (by decide), fun _ => by decide⟩
  · exact ⟨Or.inl (by decide), fun _ => by decide⟩
  · have hns : ¬ htmlSignificant c := by
      unfold htmlSignificant
      simp only [not_or]
      exact ⟨h5, h6, h2, h1, h3⟩
    exact ⟨Or.inr ⟨c, rfl, hns⟩, fun h => absurd h hns⟩

theorem escapedAs_flatMap (l : List Char) : EscapedAs l (l.flatMap htmlReplacement) := by
  refine ⟨l.map htmlReplacement, ?_, ?_⟩
  · induction l with
    | nil => exact List.Forall₂.nil
    | cons c cs ih => exact List.Forall₂.cons (htmlReplacement_escapes c) ih
  · induction l with
    | nil => rfl
    | cons c cs ih => simp [List.flatMap_cons, ih]

theorem escapedText_of_escapedAs (field out : List Char) (h : EscapedAs field out) :
    EscapedText out := by
  obtain ⟨pieces, hf, rfl⟩ := h
  refine ⟨pieces, rfl, ?_⟩
  induction hf with
  | nil => simp
  | cons h _ ih =>
    intro p hp
    rcases List.mem_cons.mp hp with hp | hp
    · exact hp ▸ h.1
    · exact ih p hp

theorem escapedText_html (s : String) : EscapedText (Escaper.htmlescaper.apply s).data :=
  escapedText_of_escapedAs _ _ (escapedAs_flatMap s.data)

theorem escapedText_attr (s : String) : EscapedText (Escaper.attrescaper.apply s).data :=
  escapedText_of_escapedAs _ _ (escapedAs_flatMap s.data)

/-! ## Searching a document for a tag -/

theorem clash_append (p s r : List Char) (h : clash p s = true) : clash p (s ++ r) = true := by
  induction p generalizing s with
  | nil => simp [clash] at h
  | cons a p ih =>
    cases s with
    | nil => simp [clash] at h
    | cons b s =>
      simp only [clash, Bool.or_eq_true, List.cons_append] at h ⊢
      exact h.imp id (ih s)

theorem clash_self (p r : List Char) : clash p (p ++ r) = false := by
  induction p with
  | nil => cases r <;> rfl
  | cons a p ih => simp [clash, ih]

theorem avoids_append (p a b : List Char) (ha : avoids p a = true) (hb : avoids p b = true) :
    avoids p (a ++ b) = true := by
  induction a with
  | nil => exact hb
  | cons c cs ih =>
    simp only [avoids, Bool.and_eq_true, List.cons_append] at ha ⊢
    exact ⟨clash_append p (c :: cs) b ha.1, ih ha.2⟩

theorem avoids_not_infix (p l : List Char) (hp : p ≠ []) (h : avoids p l = true) :
    ¬ p <:+: l := by
  rintro ⟨s, t, rfl⟩
  induction s with
  | nil =>
    cases p with
    | nil => exact hp rfl
    | cons c q =>
      have hc := clash_self (c :: q) t
      have h1 : clash (c :: q) ((c :: q) ++ t) = true := by
        simp only [List.nil_append, List.cons_append, avoids, Bool.and_eq_true] at h
        exact h.1
      rw [hc] at h1
      exact Bool.noConfusion h1
  | cons a s ih =>
    simp only [List.cons_append, avoids, Bool.and_eq_true] at h
    exact ih (by simpa using h.2)

theorem avoids_of_not_mem (c : Char) (q l : List Char) (h : c ∉ l) :
    avoids (c :: q) l = true := by
  induction l with
  | nil => rfl
  | cons d ds ih =>
    simp only [List.mem_cons, not_or] at h
    simp only [avoids, clash, Bool.and_eq_true, Bool.or_eq_true, bne_iff_ne]
    exact ⟨Or.inl h.1, ih h.2⟩

theorem document_eq (o : Out) : o.document = o.segs.flatMap Seg.chars := rfl

theorem avoids_segs (q : List Char) (texts : List String) (segs : List Seg)
    (ht : ∀ s ∈ texts, avoids ('<' :: q) s.data = true)
    (hs : ∀ seg ∈ segs, seg.sound texts) :
    avoids ('<' :: q) (segs.flatMap Seg.chars) = true := by
  induction segs with
  | nil => rfl
  | cons seg rest ih =>
    rw [List.flatMap_cons]
    apply avoids_append
    · have h := hs seg (List.mem_cons_self _ _)
      cases seg with
      | text s => exact ht s h
      | action s =>
        apply avoids_of_not_mem
        intro hmem
        exact (escapedText_chars _ h _ hmem).1 rfl
    · exact ih fun x hx => hs x (List.mem_cons_of_mem _ hx)

theorem infix_of_text_mem (s : String) (segs : List Seg) (h : Seg.text s ∈ segs) :
    s.data <:+: segs.flatMap Seg.chars := by
  obtain ⟨l1, l2, rfl⟩ := List.append_of_mem h
  refine ⟨l1.flatMap Seg.chars, l2.flatMap Seg.chars, ?_⟩
  simp [List.flatMap_append, List.flatMap_cons, Seg.chars]

/-! ## Execution of the template -/

theorem execList_nil (env : Env) : execList env [] = { segs := [], ok := true } := by
  rw [execList]

theorem execList_cons (env : Env) (n : Node) (ns : List Node) :
    execList env (n :: ns) = (execNode env n).andThen fun _ => execList env ns := by
  rw [execList]

theorem execNode_text (env : Env) (s : String) :
    execNode env (.text s) = { segs := [.text s], ok := true } := by
  rw [execNode]

theorem execNode_action (env : Env) (pipe : Expr) (escapers : List Escaper) :
    execNode env (.action pipe escapers)
      = match (pipe.eval env).bind stringify with
        | some s => { segs := [.action (applyEscapers escapers s)], ok := true }
        | none => { segs := [], ok := false } := by
  rw [execNode]

theorem execNode_ifElse (env : Env) (cond : Expr) (a b : List Node) :
    execNode env (.ifElse cond a b)
      = match cond.eval env with
        | some v => if truth v then execList env a else execList env b
        | none => { segs := [], ok := false } := by
  rw [execNode]

theorem execNode_range (env : Env) (iv ev : String) (pipe : Expr) (body : List Node) :
    execNode env (.range iv ev pipe body)
      = match (pipe.eval env).bind elements with
        | some vs =>
          rangeLoop (fun i v =>
            execList { dot := v, vars := (ev, v) :: (iv, .int i) :: env.vars } body) 0 vs
        | none => { segs := [], ok := false } := by
  rw [execNode]

theorem andThen_ok (a : List Seg) (f : Unit → Out) :
    ({ segs := a, ok := true } : Out).andThen f
      = { segs := a ++ (f ()).segs, ok := (f ()).ok } := by
  simp [Out.andThen]

theorem andThen_fail (a : List Seg) (f : Unit → Out) :
    ({ segs := a, ok := false } : Out).andThen f = { segs := a, ok := false } := by
  simp [Out.andThen]

theorem cell_exec (i : Nat) (v : String) (vars : List (String × Value)) :
    execList { dot := .str v, vars := ("v", .str v) :: ("i", .int i) :: vars } cellTemplate
      = { segs := cellSegs i v, ok := true } := by
  simp [cellTemplate, cellSegs, execList_cons, execList_nil, execNode_text, execNode_action,
    andThen_ok, Expr.eval, List.lookup, stringify, applyEscapers]

theorem cells_loop (vars : List (String × Value)) (l : List String) (i : Nat) :
    rangeLoop (fun i v =>
        execList { dot := v, vars := ("v", v) :: ("i", .int i) :: vars } cellTemplate)
      i (l.map Value.str) = { segs := cellsSegs i l, ok := true } := by
  induction l generalizing i with
  | nil => rfl
  | cons v vs ih =>
    simp only [List.map_cons, rangeLoop, cell_exec, andThen_ok, ih, cellsSegs]

theorem row_exec_cons (ii : Nat) (k : String) (tl : List String) :
    execList { dot := .strs (k :: tl),
               vars := [("vv", .strs (k :: tl)), ("ii", .int ii)] } rowTemplate
      = { segs := rowSegs ii (k :: tl), ok := true } := by
  have hloop := cells_loop [("vv", .strs (k :: tl)), ("ii", .int ii)] (k :: tl) 0
  simp only [List.map_cons] at hloop
  simp [rowTemplate, rowSegs, execList_cons, execList_nil, execNode_text, execNode_action,
    execNode_range, andThen_ok, Expr.eval, List.lookup, stringify, applyEscapers, indexOf,
    elements, hloop]

theorem row_exec_nil (ii : Nat) :
    execList { dot := .strs [], vars := [("vv", .strs []), ("ii", .int ii)] } rowTemplate
      = { segs := [.text "\n\t<tr class=\""], ok := false } := by
  simp [rowTemplate, execList_cons, execNode_text, execNode_action, andThen_ok, andThen_fail,
    Expr.eval, indexOf]

theorem rows_loop (rows : List (List String)) (hne : ∀ r ∈ rows, r ≠ []) (ii : Nat) :
    rangeLoop (fun i v =>
        execList { dot := v, vars := [("vv", v), ("ii", .int i)] } rowTemplate)
      ii (rows.map Value.strs) = { segs := rowsSegs ii rows, ok := true } := by
  induction rows generalizing ii with
  | nil => rfl
  | cons r rs ih =>
    have hrs : ∀ r ∈ rs, r ≠ [] := fun x hx => hne x (List.mem_cons_of_mem _ hx)
    cases r with
    | nil => exact absurd rfl (hne [] (List.mem_cons_self _ _))
    | cons k tl =>
      simp only [List.map_cons, rangeLoop, row_exec_cons, andThen_ok, ih hrs, rowsSegs]

theorem execute_error (data : Result) (h : data.ErrorOccurred = true) :
    Execute data
      = { segs := headSegs data.Time ++ errorSegs data.ErrorMessage ++ footSegs, ok := true } := by
  simp [Execute, html, errorTemplate, headSegs, errorSegs, footSegs, execList_cons,
    execList_nil, execNode_text, execNode_action, execNode_ifElse, andThen_ok, Expr.eval,
    fieldOf, stringify, applyEscapers, truth, h]

theorem execute_table (data : Result) (h : data.ErrorOccurred = false)
    (hne : ∀ r ∈ data.Content, r ≠ []) :
    Execute data
      = { segs := headSegs data.Time ++ [.text "\n"] ++ echoSegs data.Query_e
            ++ tableSegs data.Content ++ footSegs,
          ok := true } := by
  have hloop := rows_loop data.Content hne 0
  by_cases hq : data.Query_e = ""
  · simp [Execute, html, tableTemplate, headSegs, echoSegs, tableSegs, footSegs,
      execList_cons, execList_nil, execNode_text, execNode_action, execNode_ifElse,
      execNode_range, andThen_ok, Expr.eval, fieldOf, stringify, applyEscapers, truth, neOf,
      elements, h, hq, hloop]
  · simp [Execute, html, tableTemplate, headSegs, echoSegs, tableSegs, footSegs,
      execList_cons, execList_nil, execNode_text, execNode_action, execNode_ifElse,
      execNode_range, andThen_ok, Expr.eval, fieldOf, stringify, applyEscapers, truth, neOf,
      elements, h, hq, hloop]

/-! ## Every piece of the output is template text or escaped -/

theorem texts_html :
    textsOfList html
      = [ "<!doctype html>\n<html>\n<head>\n<title>Result</title>\n<link rel=\"stylesheet\" type=\"text/css\" href=\"style.css?t=",
          "\">\n</head>\n<body>\n<div>\n<h1>Result</h1>\n",
          "\n<p style=\"color: red;\">ERROR:<br>", "</p>\n",
          "\n", "<p>e=", "</p>",
          "\n<table border=\"1\" cellpadding=\"2\" style=\"border-collapse: collapse;\">\n",
          "\n\t<tr class=\"", " row-", "\">\n\t",
          "\n\t\t<td class=\"col-", "\">", "</td>\n\t",
          "\n\t</tr>\n", "\n</table>\n",
          "\n</div>\n<script src=\"http://localhost:35729/livereload.js\"></script>\n</body>\n</html>" ] := by
  rfl

theorem texts_row :
    textsOfList rowTemplate
      = [ "\n\t<tr class=\"", " row-", "\">\n\t",
          "\n\t\t<td class=\"col-", "\">", "</td>\n\t", "\n\t</tr>\n" ] := by
  rfl

theorem cellsSegs_sound (T : List String) (hT : ∀ s ∈ textsOfList rowTemplate, s ∈ T)
    (l : List String) (i : Nat) : ∀ seg ∈ cellsSegs i l, seg.sound T := by
  induction l generalizing i with
  | nil => simp [cellsSegs]
  | cons v vs ih =>
    intro seg hseg
    rw [cellsSegs, List.mem_append] at hseg
    rcases hseg with h | h
    · simp only [cellSegs, List.mem_cons, List.mem_singleton, List.not_mem_nil, or_false] at h
      rcases h with h | h | h | h | h <;> subst h
      · exact hT _ (by simp [texts_row])
      · exact escapedText_attr _
      · exact hT _ (by simp [texts_row])
      · exact escapedText_html _
      · exact hT _ (by simp [texts_row])
    · exact ih (i + 1) seg h

theorem rowSegs_sound (T : List String) (hT : ∀ s ∈ textsOfList rowTemplate, s ∈ T)
    (r : List String) (ii : Nat) : ∀ seg ∈ rowSegs ii r, seg.sound T := by
  intro seg hseg
  rw [rowSegs, List.mem_append, List.mem_append] at hseg
  rcases hseg with (h | h) | h
  · simp only [List.mem_cons, List.mem_singleton, List.not_mem_nil, or_false] at h
    rcases h with h | h | h | h | h <;> subst h
    · exact hT _ (by simp [texts_row])
    · exact escapedText_attr _
    · exact hT _ (by simp [texts_row])
    · exact escapedText_attr _
    · exact hT _ (by simp [texts_row])
  · exact cellsSegs_sound T hT r 0 seg h
  · simp only [List.mem_singleton] at h
    subst h
    exact hT _ (by simp [texts_row])

theorem rowsSegs_sound (T : List String) (hT : ∀ s ∈ textsOfList rowTemplate, s ∈ T)
    (rows : List (List String)) (ii : Nat) : ∀ seg ∈ rowsSegs ii rows, seg.sound T := by
  induction rows generalizing ii with
  | nil => simp [rowsSegs]
  | cons r rs ih =>
    intro seg hseg
    rw [rowsSegs, List.mem_append] at hseg
    rcases hseg with h | h
    · exact rowSegs_sound T hT r ii seg h
    · exact ih (ii + 1) seg h

theorem texts_row_sub_html : ∀ s ∈ textsOfList rowTemplate, s ∈ textsOfList html := by
  decide

theorem rows_loop_sound (rows : List (List String)) (ii : Nat) :
    ∀ seg ∈ (rangeLoop (fun i v =>
        execList { dot := v, vars := [("vv", v), ("ii", .int i)] } rowTemplate)
      ii (rows.map Value.strs)).segs, seg.sound (textsOfList html) := by
  induction rows generalizing ii with
  | nil => simp [rangeLoop]
  | cons r rs ih =>
    cases r with
    | nil =>
      simp only [List.map_cons, rangeLoop, row_exec_nil, andThen_fail]
      simp [Seg.sound, texts_html]
    | cons k tl =>
      simp only [List.map_cons, rangeLoop, row_exec_cons, andThen_ok]
      intro seg hseg
      rcases List.mem_append.mp hseg with h | h
      · exact rowSegs_sound _ texts_row_sub_html _ _ seg h
      · exact ih (ii + 1) seg h

theorem execute_table_general (data : Result) (h : data.ErrorOccurred = false) :
    Execute data
      = ({ segs := headSegs data.Time ++ [.text "\n"] ++ echoSegs data.Query_e
            ++ [.text "\n<table border=\"1\" cellpadding=\"2\" style=\"border-collapse: collapse;\">\n"],
           ok := true } : Out).andThen fun _ =>
          (rangeLoop (fun i v =>
              execList { dot := v, vars := [("vv", v), ("ii", .int i)] } rowTemplate)
            0 (data.Content.map Value.strs)).andThen fun _ =>
            { segs := [.text "\n</table>\n"] ++ footSegs, ok := true } := by
  by_cases hq : data.Query_e = ""
  · simp [Execute, html, tableTemplate, headSegs, echoSegs, footSegs,
      execList_cons, execList_nil, execNode_text, execNode_action, execNode_ifElse,
      execNode_range, andThen_ok, Expr.eval, fieldOf, stringify, applyEscapers, truth, neOf,
      elements, h, hq]
    generalize rangeLoop (fun i v =>
        execList { dot := v, vars := [("vv", v), ("ii", .int i)] } rowTemplate)
      0 (data.Content.map Value.strs) = loop
    obtain ⟨ls, lok⟩ := loop
    cases lok <;> simp [Out.andThen]
  · simp [Execute, html, tableTemplate, headSegs, echoSegs, footSegs,
      execList_cons, execList_nil, execNode_text, execNode_action, execNode_ifElse,
      execNode_range, andThen_ok, Expr.eval, fieldOf, stringify, applyEscapers, truth, neOf,
      elements, h, hq]
    generalize rangeLoop (fun i v =>
        execList { dot := v, vars := [("vv", v), ("ii", .int i)] } rowTemplate)
      0 (data.Content.map Value.strs) = loop
    obtain ⟨ls, lok⟩ := loop
    cases lok <;> simp [Out.andThen]

theorem andThen_segs_mem (a : Out) (f : Unit → Out) (seg : Seg)
    (h : seg ∈ (a.andThen f).segs) : seg ∈ a.segs ∨ seg ∈ (f ()).segs := by
  unfold Out.andThen at h
  split_ifs at h
  · exact List.mem_append.mp h
  · exact Or.inl h

theorem execute_sound (data : Result) :
    ∀ seg ∈ (Execute data).segs, seg.sound (textsOfList html) := by
  cases h : data.ErrorOccurred with
  | true =>
    rw [execute_error data h]
    simp [headSegs, errorSegs, footSegs, Seg.sound, texts_html, escapedText_attr,
      escapedText_html]
  | false =>
    have hpre : ∀ seg ∈ headSegs data.Time ++ [.text "\n"] ++ echoSegs data.Query_e
        ++ [.text "\n<table border=\"1\" cellpadding=\"2\" style=\"border-collapse: collapse;\">\n"],
        seg.sound (textsOfList html) := by
      by_cases hq : data.Query_e = "" <;>
        simp [headSegs, echoSegs, hq, Seg.sound, texts_html, escapedText_attr,
          escapedText_html]
    have hpost : ∀ seg ∈ [Seg.text "\n</table>\n"] ++ footSegs,
        seg.sound (textsOfList html) := by
      simp [footSegs, Seg.sound, texts_html]
    rw [execute_table_general data h]
    intro seg hseg
    rcases andThen_segs_mem _ _ seg hseg with h1 | h1
    · exact hpre seg h1
    · rcases andThen_segs_mem _ _ seg h1 with h2 | h2
      · exact rows_loop_sound data.Content 0 seg h2
      · exact hpost seg h2

/-! ## Where the records are in the output -/

theorem cellSegs_infix (l : List String) (k i : Nat) (v : String) (h : l[i]? = some v) :
    cellSegs (k + i) v <:+: cellsSegs k l := by
  induction l generalizing k i with
  | nil => simp at h
  | cons x xs ih =>
    cases i with
    | zero =>
      simp only [List.getElem?_cons_zero, Option.some.injEq] at h
      subst h
      exact ⟨[], cellsSegs (k + 1) xs, by simp [cellsSegs]⟩
    | succ j =>
      simp only [List.getElem?_cons_succ] at h
      have h2 := ih (k + 1) j h
      have h3 : k + 1 + j = k + (j + 1) := by omega
      rw [h3] at h2
      rw [cellsSegs]
      exact h2.trans (List.suffix_append _ _).isInfix

theorem rowSegs_infix (rows : List (List String)) (k ii : Nat) (r : List String)
    (h : rows[ii]? = some r) : rowSegs (k + ii) r <:+: rowsSegs k rows := by
  induction rows generalizing k ii with
  | nil => simp at h
  | cons x xs ih =>
    cases ii with
    | zero =>
      simp only [List.getElem?_cons_zero, Option.some.injEq] at h
      subst h
      exact ⟨[], rowsSegs (k + 1) xs, by simp [rowsSegs]⟩
    | succ j =>
      simp only [List.getElem?_cons_succ] at h
      have h2 := ih (k + 1) j h
      have h3 : k + 1 + j = k + (j + 1) := by omega
      rw [h3] at h2
      rw [rowsSegs]
      exact h2.trans (List.suffix_append _ _).isInfix

/-! ## Claims about the rendered document -/

/-- C7: for every result handed to the template, each piece of the output is
either text of the template itself or the output of an action, and that is
text without markup: it holds none of `<`, `>`, `"`, the apostrophe, and every
`&` in it starts an escape sequence. Both escapers applied to fields write
every character that has a meaning in markup as an escape sequence. When the
table is rendered, the first field of each record sits in the row's class
attribute through `attrescaper`, and every field sits in its cell through
`htmlescaper`. -/
theorem C7_fields_escaped (data : Result) :
    (∀ seg ∈ (Execute data).segs,
        (∃ s, seg = .text s ∧ s ∈ textsOfList html)
        ∨ (∃ s, seg = .action s ∧ EscapedText s.data
              ∧ ∀ c ∈ s.data, c ≠ '<' ∧ c ≠ '>' ∧ c ≠ '"' ∧ c ≠ '\''))
    ∧ (∀ v : String, EscapedAs v.data (Escaper.htmlescaper.apply v).data
          ∧ EscapedAs v.data (Escaper.attrescaper.apply v).data)
    ∧ (data.ErrorOccurred = false → (∀ r ∈ data.Content, r ≠ []) →
        ∀ (ii : Nat) (r : List String), data.Content[ii]? = some r →
          (∀ k, r.head? = some k →
            [Seg.text "\n\t<tr class=\"", .action (Escaper.attrescaper.apply k), .text " row-"]
              <:+: (Execute data).segs)
          ∧ ∀ (i : Nat) (v : String), r[i]? = some v →
            [Seg.text "\">", .action (Escaper.htmlescaper.apply v), .text "</td>\n\t"]
              <:+: (Execute data).segs) := by
  refine ⟨?_, fun v => ⟨escapedAs_flatMap v.data, escapedAs_flatMap v.data⟩, ?_⟩
  · intro seg hseg
    have h := execute_sound data seg hseg
    cases seg with
    | text s => exact Or.inl ⟨s, rfl, h⟩
    | action s => exact Or.inr ⟨s, rfl, h, escapedText_chars _ h⟩
  · intro herr hne ii r hr
    have hrow : rowSegs ii r <:+: (Execute data).segs := by
      rw [execute_table data herr hne]
      have h1 := rowSegs_infix data.Content 0 ii r hr
      rw [Nat.zero_add] at h1
      have h2 : rowsSegs 0 data.Content <:+: tableSegs data.Content :=
        ⟨_, _, rfl⟩
      have h3 : tableSegs data.Content
          <:+: headSegs data.Time ++ [.text "\n"] ++ echoSegs data.Query_e
            ++ tableSegs data.Content ++ footSegs := ⟨_, _, rfl⟩
      exact (h1.trans h2).trans h3
    constructor
    · intro k hk
      cases r with
      | nil => simp at hk
      | cons x xs =>
        simp only [List.head?_cons, Option.some.injEq] at hk
        subst hk
        refine List.IsInfix.trans ?_ hrow
        exact ⟨[], [Seg.action (Escaper.attrescaper.apply (Nat.repr ii)), .text "\">\n\t"]
          ++ cellsSegs 0 (x :: xs) ++ [.text "\n\t</tr>\n"], by simp [rowSegs]⟩
    · intro i v hv
      have h1 := cellSegs_infix r 0 i v hv
      rw [Nat.zero_add] at h1
      have h2 : cellsSegs 0 r <:+: rowSegs ii r := ⟨_, _, rfl⟩
      refine List.IsInfix.trans ?_ ((h1.trans h2).trans hrow)
      exact ⟨[Seg.text "\n\t\t<td class=\"col-", .action (Escaper.attrescaper.apply (Nat.repr i))],
        [], by simp [cellSegs]⟩

/-- Witness of C7: the record `A<b,x&y` is rendered with its first field
escaped in the class attribute and its second field escaped in its cell. -/
theorem C7_fields_escaped_witness :
    [Seg.text "\n\t<tr class=\"", .action "A&lt;b", .text " row-"]
        <:+: (Execute { Content := [["A<b", "x&y"]], Time := "T" }).segs
    ∧ [Seg.text "\">", .action "x&amp;y", .text "</td>\n\t"]
        <:+: (Execute { Content := [["A<b", "x&y"]], Time := "T" }).segs :=
  have h := (C7_fields_escaped { Content := [["A<b", "x&y"]], Time := "T" }).2.2 rfl
    (by decide) 0 ["A<b", "x&y"] rfl
  ⟨h.1 "A<b" rfl, h.2 1 "x&y" rfl⟩

/-! ## Error panel or table -/

theorem errorPage_avoids :
    ∀ s ∈ errorPageTexts, avoids tableTag s.data = true ∧ avoids echoTag s.data = true := by
  decide

theorem tablePage_avoids :
    ∀ s ∈ tablePageTexts, avoids errorTag s.data = true ∧ avoids echoTag s.data = true := by
  decide

theorem echo_avoids :
    ∀ s ∈ "<p>e=" :: "</p>" :: tablePageTexts, avoids errorTag s.data = true := by
  decide

theorem texts_row_sub_table : ∀ s ∈ textsOfList rowTemplate, s ∈ tablePageTexts := by
  decide

theorem errorPage_sound (t msg : String) :
    ∀ seg ∈ headSegs t ++ errorSegs msg ++ footSegs, seg.sound errorPageTexts := by
  simp [headSegs, errorSegs, footSegs, Seg.sound, errorPageTexts, escapedText_attr,
    escapedText_html]

theorem tablePage_sound (T : List String) (t q : String) (content : List (List String))
    (hT : ∀ s ∈ tablePageTexts, s ∈ T) (hq : q ≠ "" → "<p>e=" ∈ T ∧ "</p>" ∈ T) :
    ∀ seg ∈ headSegs t ++ [.text "\n"] ++ echoSegs q ++ tableSegs content ++ footSegs,
      seg.sound T := by
  intro seg hseg
  simp only [List.mem_append] at hseg
  rcases hseg with (((h | h) | h) | h) | h
  · simp only [headSegs, List.mem_cons, List.mem_singleton, List.not_mem_nil, or_false] at h
    rcases h with h | h | h <;> subst h
    · exact hT _ (by simp [tablePageTexts])
    · exact escapedText_attr _
    · exact hT _ (by simp [tablePageTexts])
  · simp only [List.mem_singleton] at h
    subst h
    exact hT _ (by simp [tablePageTexts])
  · unfold echoSegs at h
    split_ifs at h with hq2
    · simp at h
    · simp only [List.mem_cons, List.mem_singleton, List.not_mem_nil, or_false] at h
      rcases h with h | h | h <;> subst h
      · exact (hq hq2).1
      · exact escapedText_html _
      · exact (hq hq2).2
  · simp only [tableSegs, List.mem_append, List.mem_singleton] at h
    rcases h with (h | h) | h
    · subst h
      exact hT _ (by simp [tablePageTexts])
    · exact rowsSegs_sound T (fun s hs => hT s (texts_row_sub_table s hs)) content 0 seg h
    · subst h
      exact hT _ (by simp [tablePageTexts])
  · simp only [footSegs, List.mem_singleton] at h
    subst h
    exact hT _ (by simp [tablePageTexts])

/-- C8: for every result with `ErrorOccurred = true`, whatever `Content` and
`Query_e` hold, the document is the head of the page, the error panel showing
the escaped `ErrorMessage`, and the foot; the table and the echo of the query
do not occur in it. For every result with `ErrorOccurred = false` whose
records each have a first field, the document is the head, the echo of the
query, the table with one row per record of `Content` in order, and the foot;
the error panel does not occur in it, and the echo occurs exactly when
`Query_e` is not empty. -/
theorem C8_error_panel_or_table (data : Result) :
    (data.ErrorOccurred = true →
        Execute data
          = { segs := headSegs data.Time ++ errorSegs data.ErrorMessage ++ footSegs,
              ok := true }
        ∧ errorTag <:+: (Execute data).document
        ∧ ¬ tableTag <:+: (Execute data).document
        ∧ ¬ echoTag <:+: (Execute data).document)
    ∧ (data.ErrorOccurred = false → (∀ r ∈ data.Content, r ≠ []) →
        Execute data
          = { segs := headSegs data.Time ++ [.text "\n"] ++ echoSegs data.Query_e
                ++ tableSegs data.Content ++ footSegs,
              ok := true }
        ∧ tableTag <:+: (Execute data).document
        ∧ ¬ errorTag <:+: (Execute data).document
        ∧ (echoTag <:+: (Execute data).document ↔ data.Query_e ≠ "")) := by
  have htable : tableTag = '<' :: "table".data := rfl
  have hecho : echoTag = '<' :: "p>e=".data := rfl
  have herror : errorTag = '<' :: "p style=\"color: red;\">ERROR:".data := rfl
  constructor
  · intro h
    have hexec := execute_error data h
    have hsound := errorPage_sound data.Time data.ErrorMessage
    refine ⟨hexec, ?_, ?_, ?_⟩
    · rw [hexec, document_eq]
      have h1 : errorTag <:+: ("\n<p style=\"color: red;\">ERROR:<br>" : String).data :=
        ⟨['\n'], "<br>".data, rfl⟩
      exact h1.trans (infix_of_text_mem _ _ (by simp [errorSegs]))
    · rw [hexec, document_eq, htable]
      exact avoids_not_infix _ _ (by simp)
        (avoids_segs _ errorPageTexts _
          (fun s hs => htable ▸ (errorPage_avoids s hs).1) hsound)
    · rw [hexec, document_eq, hecho]
      exact avoids_not_infix _ _ (by simp)
        (avoids_segs _ errorPageTexts _
          (fun s hs => hecho ▸ (errorPage_avoids s hs).2) hsound)
  · intro h hne
    have hexec := execute_table data h hne
    refine ⟨hexec, ?_, ?_, ?_⟩
    · rw [hexec, document_eq]
      have h1 : tableTag
          <:+: ("\n<table border=\"1\" cellpadding=\"2\" style=\"border-collapse: collapse;\">\n"
                  : String).data :=
        ⟨['\n'], " border=\"1\" cellpadding=\"2\" style=\"border-collapse: collapse;\">\n".data,
          rfl⟩
      exact h1.trans (infix_of_text_mem _ _ (by simp [tableSegs]))
    · rw [hexec, document_eq, herror]
      exact avoids_not_infix _ _ (by simp)
        (avoids_segs _ ("<p>e=" :: "</p>" :: tablePageTexts) _
          (fun s hs => herror ▸ echo_avoids s hs)
          (tablePage_sound _ _ _ _
            (fun s hs => List.mem_cons_of_mem _ (List.mem_cons_of_mem _ hs))
            (fun _ => ⟨by simp, by simp⟩)))
    · rw [hexec, document_eq]
      constructor
      · intro hin hq
        have hav := avoids_segs "p>e=".data tablePageTexts
          (headSegs data.Time ++ [.text "\n"] ++ echoSegs data.Query_e
            ++ tableSegs data.Content ++ footSegs)
          (fun s hs => hecho ▸ (tablePage_avoids s hs).2)
          (tablePage_sound _ _ _ _ (fun s hs => hs) (fun hq2 => absurd hq hq2))
        rw [hecho] at hin
        exact avoids_not_infix _ _ (by simp) hav hin
      · intro hq
        exact infix_of_text_mem "<p>e=" _ (by simp [echoSegs, hq])

/-- Witness of C8: an error result that also holds rows and a query shows
neither table nor echo; a result with one record and the query `a` shows the
echo and no error panel. -/
theorem C8_error_panel_or_table_witness :
    (¬ tableTag <:+: (Execute { ErrorOccurred := true, ErrorMessage := "gone", Query_e := "a",
                                Content := [["B", "bar"]], Time := "T" }).document)
    ∧ (¬ errorTag
        <:+: (Execute { Query_e := "a", Content := [["B", "bar"]], Time := "T" }).document)
    ∧ echoTag
        <:+: (Execute { Query_e := "a", Content := [["B", "bar"]], Time := "T" }).document :=
  have h1 := (C8_error_panel_or_table
    { ErrorOccurred := true, ErrorMessage := "gone", Query_e := "a",
      Content := [["B", "bar"]], Time := "T" }).1 rfl
  have h2 := (C8_error_panel_or_table
    { Query_e := "a", Content := [["B", "bar"]], Time := "T" }).2 rfl (by decide)
  ⟨h1.2.2.1, h2.2.2.1, h2.2.2.2.mpr (by decide)⟩

end Csvwatch
